import Mathlib

/-!
Verification of the PASTA analytical core (RTT estimation, connection-type
classification, stepping-stone detection) against its natural-language
specification.

Shallow embedding conventions:
* Python `datetime`/`timedelta` values are modelled as exact rationals
  (seconds).  This abstracts the microsecond quantisation of `timedelta`
  arithmetic and the rounding of IEEE floats; every threshold comparison of
  the source is kept verbatim over `ℚ`.
* Python's per-direction dictionaries `{True: _, False: _}` become pairs of
  fields selected by a `Bool`.
* The Python 2 `dict` used for payload-size groups becomes an association
  list; new keys are appended (Python 2 iteration order is implementation
  defined, and no settled property depends on the order).
* Code that can raise (`None.total_seconds()` attribute errors) returns
  `Except Unit _`; `Except.error ()` models the exception.
* Integer division `sum(...) / len(...)` of Python 2 is `Nat` floor
  division, faithful to the source (payload lengths are non-negative ints).
-/

/-- One captured packet of a connection (class `Datagram`, connection.py). -/
structure Datagram where
  sentByClient : Bool
  time : ℚ
  seqNb : ℕ
  totalLen : ℕ
  payloadLen : ℕ
  ack : ℤ
  RTT : Option ℚ
deriving DecidableEq, Repr

/-- `self.datagrams` of `SteppingStoneDetectionServerSideConnection.__init__`:
the client-originated, payload-bearing datagrams of the connection. -/
def filteredDatagrams (l : List Datagram) : List Datagram :=
  l.filter (fun d => d.sentByClient && decide (d.payloadLen ≠ 0))

/-- The list comprehension `[datagram.RTT.total_seconds() for datagram in
self.datagrams]`: errors (AttributeError in Python) if some RTT is unset. -/
def getRTTs : List Datagram → Except Unit (List ℚ)
  | [] => Except.ok []
  | d :: l =>
    match d.RTT with
    | none => Except.error ()
    | some r => Except.map (fun rs => r :: rs) (getRTTs l)

/-- State and step of the IAT-building loop of `compare_RTT_IAT`: the first
component is the last client payload datagram seen (`none` while `first` is
still true), the second the IAT list built so far. -/
def iatStep (st : Option Datagram × List ℚ) (d : Datagram) :
    Option Datagram × List ℚ :=
  if d.payloadLen = 0 then st
  else if d.sentByClient then
    match st.1 with
    | some last => (some d, st.2 ++ [d.time - last.time])
    | none => (some d, st.2)
  else st

/-- The IAT list of `compare_RTT_IAT`, built over the full datagram list. -/
def computeIATs (l : List Datagram) : List ℚ :=
  (l.foldl iatStep (none, [])).2

/-- Loop body of the comparison loop of `compare_RTT_IAT` at index `i`. -/
def rttIatMatch (rtts iats : List ℚ) (i : ℕ) : Bool :=
  decide (rtts.getD i 0 ≠ 0) &&
    decide (|(rtts.getD i 0 - iats.getD i 0) / rtts.getD i 0| ≤ 1/2)

/-- The counter `compt` of `compare_RTT_IAT`. -/
def countMatches (rtts iats : List ℚ) : ℕ :=
  (List.range rtts.length).countP (rttIatMatch rtts iats)

/-- `SteppingStoneDetectionServerSideConnection.compare_RTT_IAT`.
`Except.ok none` is the Python `None` (inconclusive) return;
`Except.error ()` models the AttributeError raised by the RTT list
comprehension when a filtered datagram carries no RTT. -/
def compare_RTT_IAT (c : List Datagram) : Except Unit (Option Bool) :=
  Except.map (fun rtts0 =>
    let rtts := rtts0.drop 1
    if rtts.length < 20 then none
    else
      let iats := computeIATs c
      some (decide ((countMatches rtts iats : ℚ) / (rtts.length : ℚ) ≤ 1/100)))
    (getRTTs (filteredDatagrams c))

/-- Fold step of `closest_group`: keep the current candidate unless this
group key is within the tolerance window and its distance to the payload
beats the candidate.  Faithful to the source, which compares the distance
`abs(group - payload)` against the candidate key `closest` itself. -/
def closestStep (p : ℕ) (acc : Option ℕ) (g : ℕ × List ℕ) : Option ℕ :=
  match acc with
  | none => if Nat.dist g.1 p ≤ 3 then some g.1 else none
  | some c => if Nat.dist g.1 p ≤ 3 ∧ Nat.dist g.1 p < c then some g.1 else some c

/-- `SteppingStoneDetectionServerSideConnection.closest_group`. -/
def closest_group (p : ℕ) (groups : List (ℕ × List ℕ)) : Option ℕ :=
  groups.foldl (closestStep p) none

/-- `groups[k]` lookup (the source only reads keys that are present). -/
def dictGet (groups : List (ℕ × List ℕ)) (k : ℕ) : List ℕ :=
  ((groups.find? (fun g => g.1 == k)).map Prod.snd).getD []

/-- `groups[k] = v`: overwrite if the key exists, else append a new entry. -/
def dictSet (groups : List (ℕ × List ℕ)) (k : ℕ) (v : List ℕ) :
    List (ℕ × List ℕ) :=
  if groups.any (fun g => g.1 == k) then
    groups.map (fun g => if g.1 == k then (k, v) else g)
  else groups ++ [(k, v)]

/-- `del groups[k]`. -/
def dictDel (groups : List (ℕ × List ℕ)) (k : ℕ) : List (ℕ × List ℕ) :=
  groups.filter (fun g => !(g.1 == k))

/-- `SteppingStoneDetectionServerSideConnection.update_average_possible`:
true iff the (floor) average of the group at `closest` is farther than the
tolerance window from every group key — the group's own key included. -/
def update_average_possible (closest : ℕ) (groups : List (ℕ × List ℕ)) : Bool :=
  groups.all (fun g =>
    !decide (Nat.dist g.1
      ((dictGet groups closest).sum / (dictGet groups closest).length) ≤ 3))

/-- One iteration of the clustering loop of `is_PS_modally_distributed`. -/
def clusterStep (groups : List (ℕ × List ℕ)) (p : ℕ) : List (ℕ × List ℕ) :=
  match closest_group p groups with
  | none => dictSet groups p [p]
  | some k =>
    let groups1 := dictSet groups k (dictGet groups k ++ [p])
    if update_average_possible k groups1 then
      let ms := dictGet groups1 k
      dictDel (dictSet groups1 (ms.sum / ms.length) ms) k
    else groups1

/-- The clustering loop of `is_PS_modally_distributed`. -/
def clusterGroups (payloads : List ℕ) : List (ℕ × List ℕ) :=
  payloads.foldl clusterStep []

/-- Variant of `clusterStep` with the re-keying branch removed: a payload is
appended to its closest group and the group always keeps its old key. -/
def clusterNoRekeyStep (groups : List (ℕ × List ℕ)) (p : ℕ) :
    List (ℕ × List ℕ) :=
  match closest_group p groups with
  | none => dictSet groups p [p]
  | some k => dictSet groups k (dictGet groups k ++ [p])

/-- Clustering without the re-keying branch. -/
def clusterGroupsNoRekey (payloads : List ℕ) : List (ℕ × List ℕ) :=
  payloads.foldl clusterNoRekeyStep []

/-- `SteppingStoneDetectionServerSideConnection.is_PS_modally_distributed`. -/
def is_PS_modally_distributed (c : List Datagram) : Bool :=
  let payloads := (filteredDatagrams c).map Datagram.payloadLen
  let groups := clusterGroups payloads
  let nb := ((groups.filter (fun g =>
      decide ((g.2.length : ℚ) > (payloads.length : ℚ) * (1/10)))).map
        (fun g => g.2.length)).sum
  decide ((nb : ℚ) > (98/100) * (payloads.length : ℚ))

/-- `SteppingStoneDetectionServerSideConnection.is_stepping_stone`. -/
def is_stepping_stone (c : List Datagram) : Except Unit Bool :=
  Except.map (fun prov =>
    match prov with
    | some p => p || is_PS_modally_distributed c
    | none => false)
    (compare_RTT_IAT c)

/-- Per-connection verdict recorded by
`SteppingStoneDetectionServerSide.analyse`: the guard is on the length of
the full (unfiltered) datagram list. -/
def ssd_analyse_verdict (c : List Datagram) : Except Unit Bool :=
  if 20 < c.length then is_stepping_stone c else Except.ok false

/-- Total payload bytes sent by the client (`compute_asymetry`). -/
def clientSentPayload (l : List Datagram) : ℕ :=
  ((l.filter (fun d => d.sentByClient)).map Datagram.payloadLen).sum

/-- Total payload bytes sent by the server (`compute_asymetry`). -/
def serverSentPayload (l : List Datagram) : ℕ :=
  ((l.filter (fun d => !d.sentByClient)).map Datagram.payloadLen).sum

/-- `ConnectionType.compute_asymetry`: the ratio `self.ratio_server_sent`,
with the source's division-by-zero guard on the server total. -/
def compute_asymetry (l : List Datagram) : ℚ :=
  if (serverSentPayload l : ℚ) = 0 then 0
  else (serverSentPayload l : ℚ) /
    ((serverSentPayload l : ℚ) + (clientSentPayload l : ℚ))

/-- State of the `compute_time_to_reply` loop: the two `last_datagram` slots
and the two growing time-to-reply sample lists (`True` then `False`). -/
structure TTRState where
  lastT : Option Datagram
  lastF : Option Datagram
  ttrT : List ℚ
  ttrF : List ℚ
deriving Repr

/-- Read `last_datagram[way]`. -/
def ttrLast (st : TTRState) (way : Bool) : Option Datagram :=
  if way then st.lastT else st.lastF

/-- Append a sample to `self.time_to_reply[way]`. -/
def ttrAppend (st : TTRState) (way : Bool) (v : ℚ) : TTRState :=
  if way then { st with ttrT := st.ttrT ++ [v] }
  else { st with ttrF := st.ttrF ++ [v] }

/-- `last_datagram[way] = None; last_datagram[not way] = datagram`. -/
def ttrAdvance (st : TTRState) (way : Bool) (d : Datagram) : TTRState :=
  if way then { st with lastT := none, lastF := some d }
  else { st with lastF := none, lastT := some d }

/-- Loop body of `ConnectionType.compute_time_to_reply`; errors when the
pending datagram's `rtt` is unset (AttributeError in Python). -/
def ttrStep (st : TTRState) (d : Datagram) : Except Unit TTRState :=
  if d.payloadLen = 0 then Except.ok st
  else
    match ttrLast st (!d.sentByClient) with
    | none => Except.ok (ttrAdvance st (!d.sentByClient) d)
    | some ld =>
      match ld.RTT with
      | none => Except.error ()
      | some r =>
        if r ≠ 0 then
          Except.ok (ttrAdvance
            (ttrAppend st (!d.sentByClient) ((d.time - ld.time) / r))
            (!d.sentByClient) d)
        else Except.ok (ttrAdvance st (!d.sentByClient) d)

/-- `ConnectionType.compute_time_to_reply`: the two sample lists. -/
def compute_time_to_reply (l : List Datagram) : Except Unit (List ℚ × List ℚ) :=
  Except.map (fun st => (st.ttrT, st.ttrF))
    (l.foldlM ttrStep ⟨none, none, [], []⟩)

/-- The fraction of time-to-reply samples at or below the 0.7-RTT
threshold (`replies_to_consider / replies_total`). -/
def replyFrac (ttr : List ℚ) : ℚ :=
  ((ttr.countP (fun t => decide (t ≤ 7/10))) : ℚ) / (ttr.length : ℚ)

/-- The decision test of one `way` in `ConnectionType.analyse`: there are
samples and their fraction below the threshold reaches 0.6. -/
def wayQualifies (ttr : List ℚ) : Bool :=
  !ttr.isEmpty && decide (replyFrac ttr ≥ 6/10)

/-- The reply-latency half of `ConnectionType.analyse` (the part after the
SCP checks), `way = True` (shell) evaluated before `way = False`. -/
def replyAnalysis (l : List Datagram) : Except Unit String :=
  Except.map (fun p =>
    if wayQualifies p.1 then "shell"
    else if wayQualifies p.2 then "reverse shell"
    else "tunnel")
    (compute_time_to_reply l)

/-- `ConnectionType.analyse`: the final `self.connection_type` label. -/
def connection_type_analyse (l : List Datagram) : Except Unit String :=
  if compute_asymetry l > 1/2 then
    if compute_asymetry l ≥ 95/100 then Except.ok "scp (down)"
    else replyAnalysis l
  else
    if compute_asymetry l ≤ 5/100 then Except.ok "scp (up)"
    else replyAnalysis l

/-- The `last_acking` state of `Connection.compute_RTT` step 1 (`True`
slot first). -/
structure AckState where
  ackT : Option Datagram
  ackF : Option Datagram
deriving DecidableEq, Repr

/-- Read `last_acking[w]`. -/
def ackGet (st : AckState) (w : Bool) : Option Datagram :=
  if w then st.ackT else st.ackF

/-- Write `last_acking[w]`. -/
def ackSet (st : AckState) (w : Bool) (v : Option Datagram) : AckState :=
  if w then { st with ackT := v } else { st with ackF := v }

/-- Loop body of step 1 of `Connection.compute_RTT` (run over the reversed
sequence): match against the opposite direction's pending acker, then
register the datagram as pending acker for its own direction if it carries
an acknowledgment. -/
def step1Datagram (st : AckState) (d : Datagram) : AckState × Datagram :=
  let p : AckState × Datagram :=
    match ackGet st (!d.sentByClient) with
    | some a =>
      if d.seqNb < a.seqNb then
        (ackSet st (!d.sentByClient) none, { d with RTT := some (a.time - d.time) })
      else (st, d)
    | none => (st, d)
  if p.2.ack > -1 then (ackSet p.1 p.2.sentByClient (some p.2), p.2) else p

/-- Step 1 loop of `Connection.compute_RTT` over a datagram list. -/
def step1Go : AckState → List Datagram → List Datagram
  | _, [] => []
  | st, d :: l =>
    let p := step1Datagram st d
    p.2 :: step1Go p.1 l

/-- Step 1 of `Connection.compute_RTT`: reverse, run the matching loop,
restore the original order. -/
def computeRTTStep1 (l : List Datagram) : List Datagram :=
  (step1Go ⟨none, none⟩ l.reverse).reverse

/-- State of step 2 of `Connection.compute_RTT`: `last_RTT` per direction
and the length of `empty_RTTs` per direction (the pending datagrams
themselves are emitted as slots, see `Slot`). -/
structure InterpState where
  lastT : Option ℚ
  lastF : Option ℚ
  pendT : ℕ
  pendF : ℕ
deriving DecidableEq, Repr

/-- Read `last_RTT[w]`. -/
def ipLast (st : InterpState) (w : Bool) : Option ℚ :=
  if w then st.lastT else st.lastF

/-- Read `len(empty_RTTs[w])`. -/
def ipPend (st : InterpState) (w : Bool) : ℕ :=
  if w then st.pendT else st.pendF

/-- Append a datagram to `empty_RTTs[w]`. -/
def ipInc (st : InterpState) (w : Bool) : InterpState :=
  if w then { st with pendT := st.pendT + 1 } else { st with pendF := st.pendF + 1 }

/-- `empty_RTTs[w] = []` and `last_RTT[w] = r`. -/
def ipReset (st : InterpState) (w : Bool) (r : ℚ) : InterpState :=
  if w then { st with lastT := some r, pendT := 0 }
  else { st with lastF := some r, pendF := 0 }

/-- The RTT values step 2 assigns to a run of `k` pending datagrams when a
datagram with RTT `r` arrives: flat copy if no earlier RTT in this
direction, else the linear interpolation `last + i * diff` of the source. -/
def fillVals (last : Option ℚ) (r : ℚ) (k : ℕ) : List ℚ :=
  match last with
  | none => List.replicate k r
  | some l0 =>
    (List.range k).map
      (fun (i : ℕ) => l0 + ((i : ℚ) + 1) * ((r - l0) / ((k : ℚ) + 1)))

/-- A slot of the step 2 traversal: either a datagram left untouched by the
loop (it already carries an RTT) or a pending datagram whose RTT the loop
assigns later; the in-place mutation of the source is realised by `resolve`
as a side table of fill values, per direction in first-in-first-out order. -/
inductive Slot where
  | done (d : Datagram)
  | pend (d : Datagram)
deriving DecidableEq, Repr

/-- The datagram held by a slot. -/
def slotD : Slot → Datagram
  | Slot.done d => d
  | Slot.pend d => d

/-- Step 2 loop of `Connection.compute_RTT` (including the trailing
flat-fill loop): returns the slots in traversal order and, per direction,
the concatenated fill values in assignment order. -/
def step2Go (st : InterpState) : List Datagram → List Slot × List ℚ × List ℚ
  | [] =>
    ([],
     (match st.lastT with
      | none => []
      | some l0 => List.replicate st.pendT l0),
     (match st.lastF with
      | none => []
      | some l0 => List.replicate st.pendF l0))
  | d :: l =>
    match d.RTT with
    | none =>
      let r := step2Go (ipInc st d.sentByClient) l
      (Slot.pend d :: r.1, r.2)
    | some v =>
      let batch := fillVals (ipLast st d.sentByClient) v (ipPend st d.sentByClient)
      let r := step2Go (ipReset st d.sentByClient v) l
      (Slot.done d :: r.1,
       if d.sentByClient then (batch ++ r.2.1, r.2.2)
       else (r.2.1, batch ++ r.2.2))

/-- Apply the per-direction fill values to the pending slots, in order. -/
def resolve : List Slot → List ℚ → List ℚ → List Datagram
  | [], _, _ => []
  | Slot.done d :: s, fT, fF => d :: resolve s fT fF
  | Slot.pend d :: s, fT, fF =>
    if d.sentByClient then
      match fT with
      | [] => d :: resolve s [] fF
      | v :: fT2 => { d with RTT := some v } :: resolve s fT2 fF
    else
      match fF with
      | [] => d :: resolve s fT []
      | v :: fF2 => { d with RTT := some v } :: resolve s fT fF2

/-- Step 2 of `Connection.compute_RTT`. -/
def computeRTTStep2 (l : List Datagram) : List Datagram :=
  resolve (step2Go ⟨none, none, 0, 0⟩ l).1
    (step2Go ⟨none, none, 0, 0⟩ l).2.1 (step2Go ⟨none, none, 0, 0⟩ l).2.2

/-- `Connection.compute_RTT`: the exact-matching pass then the
interpolation pass. -/
def compute_RTT (l : List Datagram) : List Datagram :=
  computeRTTStep2 (computeRTTStep1 l)

/-- `fillVals` wrapped in `some`, the shape the filled RTT slots take. -/
def fillGap (last : Option ℚ) (r : ℚ) (k : ℕ) : List (Option ℚ) :=
  (fillVals last r k).map some

/-- Step 2 of `Connection.compute_RTT` restricted to a single direction,
over the sequence of RTT slots of that direction: the reference the
per-direction projection of the full pass is proven equal to. -/
def interpGo : Option ℚ → ℕ → List (Option ℚ) → List (Option ℚ)
  | last, p, [] =>
    (match last with
     | none => List.replicate p none
     | some l0 => List.replicate p (some l0))
  | last, p, none :: xs => interpGo last (p + 1) xs
  | last, p, some r :: xs => fillGap last r p ++ some r :: interpGo (some r) 0 xs

/-- Single-direction interpolation of a sequence of RTT slots. -/
def interpRTTs (xs : List (Option ℚ)) : List (Option ℚ) :=
  interpGo none 0 xs

/-- The RTT slots of the datagrams of direction `w`, in order. -/
def wayRTTs (w : Bool) (l : List Datagram) : List (Option ℚ) :=
  (l.filter (fun d => d.sentByClient == w)).map Datagram.RTT

/-- All fields of two datagrams agree except possibly the RTT slot. -/
def sameExceptRTT (d e : Datagram) : Prop :=
  e.sentByClient = d.sentByClient ∧ e.time = d.time ∧ e.seqNb = d.seqNb ∧
    e.totalLen = d.totalLen ∧ e.payloadLen = d.payloadLen ∧ e.ack = d.ack

/-- Single-direction restriction of `resolve`: fill the pending slots of a
slot list from one fill-value list, in order. -/
def resolveOne : List Slot → List ℚ → List Datagram
  | [], _ => []
  | Slot.done d :: s, f => d :: resolveOne s f
  | Slot.pend d :: s, [] => d :: resolveOne s []
  | Slot.pend d :: s, v :: f => { d with RTT := some v } :: resolveOne s f

/-- The slot's datagram was sent in direction `w`. -/
def isWay (w : Bool) (s : Slot) : Bool := (slotD s).sentByClient == w

/-- The fill values of direction `w` in a `step2Go` result. -/
def fillsOf (w : Bool) (r : List Slot × List ℚ × List ℚ) : List ℚ :=
  if w then r.2.1 else r.2.2

/-- Shorthand to build concrete datagrams for the concrete instances. -/
def mkDg (w : Bool) (t : ℚ) (sq : ℕ) (pl : ℕ) (ak : ℤ) (r : Option ℚ) :
    Datagram :=
  ⟨w, t, sq, pl + 20, pl, ak, r⟩

/-- Ten client payload datagrams of equal size: Sub-test A is inconclusive
on them while the modal-clustering sub-test accepts them. -/
def ssdInA : List Datagram :=
  (List.range 10).map (fun (i : ℕ) => mkDg true (i : ℚ) i 100 (-1) (some 1))

/-- Twenty-one client payload datagrams, inter-arrival time 10, RTT 1:
almost no RTT/IAT matches, so Sub-test A returns true. -/
def ssdInTrue : List Datagram :=
  (List.range 21).map (fun (i : ℕ) => mkDg true (10 * (i : ℚ)) i 100 (-1) (some 1))

/-- Twenty-one client payload datagrams, inter-arrival time 10, RTT 10:
every index matches, so Sub-test A returns false. -/
def ssdInFalse : List Datagram :=
  (List.range 21).map (fun (i : ℕ) => mkDg true (10 * (i : ℚ)) i 100 (-1) (some 10))

/-- Twenty-one datagrams in total but only one client payload datagram,
whose RTT is unset: the detector guard admits the connection and the RTT
list comprehension of Sub-test A fails. -/
def ssdInRaise : List Datagram :=
  mkDg true 0 0 100 (-1) none ::
    (List.range 20).map (fun (i : ℕ) => mkDg false (i : ℚ) i 0 (-1) none)

/-- Twenty-one datagrams in total, one client payload datagram carrying an
RTT: the guard admits the connection, Sub-test A is inconclusive. -/
def ssdInFew : List Datagram :=
  mkDg true 0 0 100 (-1) (some 1) ::
    (List.range 20).map (fun (i : ℕ) => mkDg false (i : ℚ) i 0 (-1) none)

/-- A client payload datagram with unset RTT immediately followed by a
server payload datagram: `compute_time_to_reply` dereferences the unset
RTT and raises. -/
def ctInRaise : List Datagram :=
  [mkDg true 0 0 10 (-1) none, mkDg false 1 1 10 (-1) (some 1)]

/-- Balanced payload with RTTs set and a fast server reply: SCP undecided,
reply analysis labels the connection a shell. -/
def ctInShell : List Datagram :=
  [mkDg true 0 0 10 (-1) (some 1), mkDg false (1/2) 1 10 (-1) (some 1)]

/-- A single server payload datagram: asymmetry ratio 1. -/
def ctInDown : List Datagram := [mkDg false 0 0 100 (-1) none]

/-- A connection with payload only from the server: nonzero total bytes. -/
def ctInBytes : List Datagram := [mkDg false 0 0 5 (-1) none]

/-- Two client payload datagrams carrying RTTs. -/
def ssdInTwo : List Datagram :=
  [mkDg true 0 0 10 (-1) (some 1), mkDg true 5 1 10 (-1) (some 1)]

/-- A pending client-sent acker (sequence number 5, acking 3). -/
def ackerC4 : Datagram := mkDg true 10 5 0 3 none

/-- A server-sent datagram (sequence number 3) carrying an ack. -/
def dgC4 : Datagram := mkDg false 4 3 10 2 none

/-- The exact-matching state in which `ackerC4` is the client's pending
acker and the server has none. -/
def stC4 : AckState := ⟨some ackerC4, none⟩

lemma getRTTs_ok_length :
    ∀ (l : List Datagram) (rs : List ℚ), getRTTs l = Except.ok rs →
      rs.length = l.length := by
  intro l
  induction l with
  | nil =>
    intro rs h
    simp only [getRTTs, Except.ok.injEq] at h
    simp [← h]
  | cons d l ih =>
    intro rs h
    unfold getRTTs at h
    cases hR : d.RTT with
    | none => rw [hR] at h; cases h
    | some r =>
      rw [hR] at h
      cases hgl : getRTTs l with
      | error e => rw [hgl] at h; cases h
      | ok rs2 =>
        rw [hgl] at h
        simp only [Except.map, Except.ok.injEq] at h
        subst h
        simp [ih rs2 hgl]

lemma iat_fold_some :
    ∀ (l : List Datagram) (d0 : Datagram) (acc : List ℚ),
      ((l.foldl iatStep (some d0, acc)).2).length =
        acc.length + (filteredDatagrams l).length := by
  intro l
  induction l with
  | nil => intro d0 acc; simp [filteredDatagrams]
  | cons d l ih =>
    intro d0 acc
    by_cases hp : d.payloadLen = 0
    · have hf : filteredDatagrams (d :: l) = filteredDatagrams l := by
        simp [filteredDatagrams, List.filter_cons, hp]
      rw [List.foldl_cons, hf]
      simp only [iatStep, if_pos hp]
      exact ih d0 acc
    · by_cases hc : d.sentByClient
      · have hf : filteredDatagrams (d :: l) = d :: filteredDatagrams l := by
          simp [filteredDatagrams, List.filter_cons, hp, hc]
        rw [List.foldl_cons, hf]
        simp only [iatStep, if_neg hp, if_pos hc]
        rw [ih d (acc ++ [d.time - d0.time])]
        simp
        omega
      · have hf : filteredDatagrams (d :: l) = filteredDatagrams l := by
          simp [filteredDatagrams, List.filter_cons, hc]
        rw [List.foldl_cons, hf]
        simp only [iatStep, if_neg hp, if_neg hc]
        exact ih d0 acc

lemma iat_fold_none :
    ∀ (l : List Datagram) (acc : List ℚ),
      ((l.foldl iatStep (none, acc)).2).length =
        acc.length + ((filteredDatagrams l).length - 1) := by
  intro l
  induction l with
  | nil => intro acc; simp [filteredDatagrams]
  | cons d l ih =>
    intro acc
    by_cases hp : d.payloadLen = 0
    · have hf : filteredDatagrams (d :: l) = filteredDatagrams l := by
        simp [filteredDatagrams, List.filter_cons, hp]
      rw [List.foldl_cons, hf]
      simp only [iatStep, if_pos hp]
      exact ih acc
    · by_cases hc : d.sentByClient
      · have hf : filteredDatagrams (d :: l) = d :: filteredDatagrams l := by
          simp [filteredDatagrams, List.filter_cons, hp, hc]
        rw [List.foldl_cons, hf]
        simp only [iatStep, if_neg hp, if_pos hc]
        rw [iat_fold_some l d acc]
        simp
      · have hf : filteredDatagrams (d :: l) = filteredDatagrams l := by
          simp [filteredDatagrams, List.filter_cons, hc]
        rw [List.foldl_cons, hf]
        simp only [iatStep, if_neg hp, if_neg hc]
        exact ih acc

lemma computeIATs_length (l : List Datagram) :
    (computeIATs l).length = (filteredDatagrams l).length - 1 := by
  simpa using iat_fold_none l []

lemma compare_RTT_IAT_short (c : List Datagram) (rs : List ℚ)
    (hok : getRTTs (filteredDatagrams c) = Except.ok rs)
    (hshort : (rs.drop 1).length < 20) :
    compare_RTT_IAT c = Except.ok none := by
  unfold compare_RTT_IAT
  rw [hok]
  simp only [Except.map, Except.ok.injEq]
  rw [if_pos hshort]

lemma replyAnalysis_ne_scp (l : List Datagram) :
    replyAnalysis l ≠ Except.ok "scp (down)" ∧
      replyAnalysis l ≠ Except.ok "scp (up)" := by
  unfold replyAnalysis
  cases h : compute_time_to_reply l with
  | error e => simp [Except.map]
  | ok p =>
    constructor <;> simp only [Except.map, ne_eq, Except.ok.injEq] <;>
      split_ifs <;> decide

/-- Claim C7: the asymmetry computation of `ConnectionType` never raises:
the ratio equals serverPayloadBytes / (serverPayloadBytes +
clientPayloadBytes) over payload bytes, and equals 0 whenever the total
payload byte count is zero (the division-by-zero case is guarded). -/
theorem asymmetry_ratio_guarded (l : List Datagram) :
    (clientSentPayload l + serverSentPayload l = 0 → compute_asymetry l = 0) ∧
    (clientSentPayload l + serverSentPayload l ≠ 0 →
      compute_asymetry l = (serverSentPayload l : ℚ) /
        ((serverSentPayload l : ℚ) + (clientSentPayload l : ℚ))) := by
  constructor
  · intro h
    have hs : serverSentPayload l = 0 := by omega
    simp [compute_asymetry, hs]
  · intro h
    unfold compute_asymetry
    split_ifs with hs
    · rw [hs]
      simp
    · rfl

/-- Witness for C7 at a connection with nonzero payload total. -/
theorem asymmetry_ratio_guarded_witness :
    compute_asymetry ctInBytes =
      (serverSentPayload ctInBytes : ℚ) /
        ((serverSentPayload ctInBytes : ℚ) + (clientSentPayload ctInBytes : ℚ)) :=
  (asymmetry_ratio_guarded ctInBytes).2 (by decide)

/-- Claim C8: the classifier labels a connection `scp (down)` exactly when
the asymmetry ratio is greater than 0.5 and at least 0.95, `scp (up)`
exactly when the ratio is at most 0.5 and at most 0.05, and for every
ratio strictly between 0.05 and 0.95 it proceeds to the reply-latency
analysis. -/
theorem scp_thresholds (l : List Datagram) :
    (connection_type_analyse l = Except.ok "scp (down)" ↔
      compute_asymetry l > 1/2 ∧ compute_asymetry l ≥ 95/100) ∧
    (connection_type_analyse l = Except.ok "scp (up)" ↔
      compute_asymetry l ≤ 1/2 ∧ compute_asymetry l ≤ 5/100) ∧
    (5/100 < compute_asymetry l → compute_asymetry l < 95/100 →
      connection_type_analyse l = replyAnalysis l) := by
  obtain ⟨hd, hu⟩ := replyAnalysis_ne_scp l
  unfold connection_type_analyse
  split_ifs with h1 h2 h3
  · exact ⟨⟨fun _ => ⟨h1, h2⟩, fun _ => rfl⟩,
      ⟨fun hc => absurd (Except.ok.inj hc) (by decide),
       fun hc => absurd h1 (not_lt.mpr hc.1)⟩,
      fun _ h95 => absurd h2 (not_le.mpr h95)⟩
  · exact ⟨⟨fun hc => absurd hc hd, fun hc => absurd hc.2 h2⟩,
      ⟨fun hc => absurd hc hu, fun hc => absurd h1 (not_lt.mpr hc.1)⟩,
      fun _ _ => rfl⟩
  · exact ⟨⟨fun hc => absurd (Except.ok.inj hc) (by decide),
       fun hc => absurd hc.1 h1⟩,
      ⟨fun _ => ⟨not_lt.mp h1, h3⟩, fun _ => rfl⟩,
      fun h5 _ => absurd h3 (not_le.mpr h5)⟩
  · exact ⟨⟨fun hc => absurd hc hd, fun hc => absurd hc.1 h1⟩,
      ⟨fun hc => absurd hc hu, fun hc => absurd hc.2 h3⟩,
      fun _ _ => rfl⟩

/-- Witness for C8 at a connection with asymmetry ratio 1. -/
theorem scp_thresholds_witness :
    connection_type_analyse ctInDown = Except.ok "scp (down)" :=
  (scp_thresholds ctInDown).1.mpr
    ⟨of_decide_eq_true (by with_unfolding_all rfl),
     of_decide_eq_true (by with_unfolding_all rfl)⟩

/-- Claim C1 (amended): the per-connection verdict is true when Sub-test A
returns true (without evaluating Sub-test B), Sub-test B's boolean when
Sub-test A returns false, and false — without running Sub-test B — when
Sub-test A is inconclusive. -/
theorem ssd_verdict_dispatch (c : List Datagram) :
    (compare_RTT_IAT c = Except.ok (some true) →
      is_stepping_stone c = Except.ok true) ∧
    (compare_RTT_IAT c = Except.ok (some false) →
      is_stepping_stone c = Except.ok (is_PS_modally_distributed c)) ∧
    (compare_RTT_IAT c = Except.ok none →
      is_stepping_stone c = Except.ok false) := by
  unfold is_stepping_stone
  refine ⟨fun h => ?_, fun h => ?_, fun h => ?_⟩ <;> rw [h] <;> rfl

/-- Witness for C1: all three branches of the dispatch at concrete
connections. -/
theorem ssd_verdict_dispatch_witness :
    is_stepping_stone ssdInTrue = Except.ok true ∧
    is_stepping_stone ssdInFalse =
      Except.ok (is_PS_modally_distributed ssdInFalse) ∧
    is_stepping_stone ssdInA = Except.ok false :=
  ⟨(ssd_verdict_dispatch ssdInTrue).1 (by with_unfolding_all rfl),
   (ssd_verdict_dispatch ssdInFalse).2.1 (by with_unfolding_all rfl),
   (ssd_verdict_dispatch ssdInA).2.2 (by with_unfolding_all rfl)⟩

/-- Counterexample for C1 as stated: on `ssdInA` Sub-test A is
inconclusive and Sub-test B returns true, yet the verdict is false — the
inconclusive case does not take Sub-test B's boolean. -/
theorem ssd_inconclusive_counterexample :
    compare_RTT_IAT ssdInA = Except.ok none ∧
    is_PS_modally_distributed ssdInA = true ∧
    is_stepping_stone ssdInA = Except.ok false :=
  ⟨by with_unfolding_all rfl, by with_unfolding_all rfl,
   by with_unfolding_all rfl⟩

/-- Claim C2 (amended): a connection with at most 20 datagrams in total is
recorded as not a stepping stone without running either sub-test; a
connection with more than 20 datagrams but fewer than 20 client-originated
payload-bearing datagrams, all carrying RTTs, is also recorded false —
Sub-test A runs but is inconclusive, and Sub-test B is not consulted. -/
theorem ssd_insufficient_data (c : List Datagram) :
    (c.length ≤ 20 → ssd_analyse_verdict c = Except.ok false) ∧
    (20 < c.length → (filteredDatagrams c).length < 20 →
      ∀ rs, getRTTs (filteredDatagrams c) = Except.ok rs →
        compare_RTT_IAT c = Except.ok none ∧
        ssd_analyse_verdict c = Except.ok false) := by
  constructor
  · intro h
    unfold ssd_analyse_verdict
    rw [if_neg (by omega)]
  · intro hlen hfew rs hrs
    have hlenrs : rs.length = (filteredDatagrams c).length :=
      getRTTs_ok_length _ _ hrs
    have hcmp : compare_RTT_IAT c = Except.ok none := by
      apply compare_RTT_IAT_short c rs hrs
      rw [List.length_drop]
      omega
    refine ⟨hcmp, ?_⟩
    unfold ssd_analyse_verdict
    rw [if_pos hlen]
    unfold is_stepping_stone
    rw [hcmp]
    rfl

/-- Witness for C2: the empty connection and a 21-datagram connection with
a single RTT-carrying client payload datagram. -/
theorem ssd_insufficient_data_witness :
    ssd_analyse_verdict [] = Except.ok false ∧
    compare_RTT_IAT ssdInFew = Except.ok none ∧
    ssd_analyse_verdict ssdInFew = Except.ok false :=
  ⟨(ssd_insufficient_data []).1 (by decide),
   ((ssd_insufficient_data ssdInFew).2 (by decide) (by decide) [1] rfl).1,
   ((ssd_insufficient_data ssdInFew).2 (by decide) (by decide) [1] rfl).2⟩

/-- Counterexample for C2 as stated: `ssdInRaise` has fewer than 20 client
payload datagrams, yet the detector does not record false directly — the
guard on the unfiltered datagram count admits the connection, Sub-test A
is entered, and it raises on the unset RTT. -/
theorem ssd_insufficient_data_counterexample :
    (filteredDatagrams ssdInRaise).length < 20 ∧
    ssd_analyse_verdict ssdInRaise = Except.error () :=
  ⟨by decide, rfl⟩

/-- Claim C10: with at least two client payload datagrams whose RTT slots
are all set, the IAT list has exactly n − 1 elements, the RTT list after
dropping its first element also has n − 1 elements, the two lists used by
the comparison loop have equal length, and the divisions by the RTT-list
length are reached only when that length is at least 20 (below 20 the
sub-test returns its inconclusive verdict first). -/
theorem compare_lists_aligned (c : List Datagram) (rs : List ℚ)
    (hok : getRTTs (filteredDatagrams c) = Except.ok rs)
    (h2 : 2 ≤ (filteredDatagrams c).length) :
    (computeIATs c).length = (filteredDatagrams c).length - 1 ∧
    (rs.drop 1).length = (filteredDatagrams c).length - 1 ∧
    (computeIATs c).length = (rs.drop 1).length ∧
    ((rs.drop 1).length < 20 → compare_RTT_IAT c = Except.ok none) := by
  have hlenrs : rs.length = (filteredDatagrams c).length :=
    getRTTs_ok_length _ _ hok
  have hiat := computeIATs_length c
  have hdrop : (rs.drop 1).length = (filteredDatagrams c).length - 1 := by
    rw [List.length_drop]
    omega
  exact ⟨hiat, hdrop, by omega,
    fun hshort => compare_RTT_IAT_short c rs hok hshort⟩

/-- Witness for C10 at a two-datagram connection. -/
theorem compare_lists_aligned_witness :
    (computeIATs ssdInTwo).length = (filteredDatagrams ssdInTwo).length - 1 ∧
    (([1, 1] : List ℚ).drop 1).length = (filteredDatagrams ssdInTwo).length - 1 ∧
    (computeIATs ssdInTwo).length = (([1, 1] : List ℚ).drop 1).length ∧
    compare_RTT_IAT ssdInTwo = Except.ok none := by
  have h := compare_lists_aligned ssdInTwo [1, 1] rfl (by decide)
  exact ⟨h.1, h.2.1, h.2.2.1, h.2.2.2 (by decide)⟩

lemma natDist_le3 {a b : ℕ} : Nat.dist a b ≤ 3 ↔ a ≤ b + 3 ∧ b ≤ a + 3 := by
  unfold Nat.dist
  omega

lemma closestStep_fold (p : ℕ) :
    ∀ (gs : List (ℕ × List ℕ)) (acc : Option ℕ) (k : ℕ),
      gs.foldl (closestStep p) acc = some k →
      acc = some k ∨ ((∃ ms, (k, ms) ∈ gs) ∧ Nat.dist k p ≤ 3) := by
  intro gs
  induction gs with
  | nil => intro acc k h; exact Or.inl h
  | cons g gs ih =>
    intro acc k h
    rw [List.foldl_cons] at h
    rcases ih (closestStep p acc g) k h with h1 | h1
    · cases acc with
      | none =>
        simp only [closestStep] at h1
        by_cases hd : Nat.dist g.1 p ≤ 3
        · rw [if_pos hd] at h1
          have hk := Option.some.inj h1
          exact Or.inr ⟨⟨g.2, by rw [← hk]; exact List.mem_cons_self _ _⟩,
            hk ▸ hd⟩
        · rw [if_neg hd] at h1; cases h1
      | some c =>
        simp only [closestStep] at h1
        by_cases hd : Nat.dist g.1 p ≤ 3 ∧ Nat.dist g.1 p < c
        · rw [if_pos hd] at h1
          have hk := Option.some.inj h1
          exact Or.inr ⟨⟨g.2, by rw [← hk]; exact List.mem_cons_self _ _⟩,
            hk ▸ hd.1⟩
        · rw [if_neg hd] at h1; exact Or.inl h1
    · obtain ⟨⟨ms, hms⟩, hd⟩ := h1
      exact Or.inr ⟨⟨ms, List.mem_cons_of_mem _ hms⟩, hd⟩

lemma closest_group_mem (p k : ℕ) (groups : List (ℕ × List ℕ))
    (h : closest_group p groups = some k) :
    (∃ ms, (k, ms) ∈ groups) ∧ Nat.dist k p ≤ 3 := by
  rcases closestStep_fold p groups none k h with h1 | h1
  · cases h1
  · exact h1

lemma avg_dist_le (k : ℕ) (ms : List ℕ) (h : ms ≠ [])
    (hm : ∀ m ∈ ms, Nat.dist k m ≤ 3) :
    Nat.dist k (ms.sum / ms.length) ≤ 3 := by
  have hlen : 0 < ms.length := List.length_pos.mpr h
  have hub : ms.sum ≤ ms.length * (k + 3) := by
    have h2 := List.sum_le_card_nsmul ms (k + 3)
      (fun m hmem => (natDist_le3.mp (hm m hmem)).2)
    simpa [smul_eq_mul] using h2
  have hlb : ms.length * (k - 3) ≤ ms.sum := by
    have h2 := List.card_nsmul_le_sum (l := ms) (n := k - 3)
      (fun m hmem => by have h3 := (natDist_le3.mp (hm m hmem)).1; omega)
    simpa [smul_eq_mul] using h2
  have h1 : ms.sum / ms.length ≤ k + 3 := by
    have h2 : ms.sum / ms.length ≤ ms.length * (k + 3) / ms.length :=
      Nat.div_le_div_right hub
    rwa [Nat.mul_div_cancel_left _ hlen] at h2
  have h2 : k - 3 ≤ ms.sum / ms.length := by
    rw [Nat.le_div_iff_mul_le hlen]
    calc (k - 3) * ms.length = ms.length * (k - 3) := Nat.mul_comm _ _
    _ ≤ ms.sum := hlb
  rw [natDist_le3]
  omega

lemma find_key_map_set (k : ℕ) (v : List ℕ) :
    ∀ (gs : List (ℕ × List ℕ)), gs.any (fun g => g.1 == k) = true →
      (gs.map (fun g => if g.1 == k then (k, v) else g)).find?
        (fun g => g.1 == k) = some (k, v) := by
  intro gs
  induction gs with
  | nil => intro h; simp at h
  | cons g gs ih =>
    intro h
    by_cases hk : (g.1 == k) = true
    · rw [List.map_cons, if_pos hk]
      exact List.find?_cons_of_pos (p := fun (g : ℕ × List ℕ) => g.1 == k) _ (by simp)
    · rw [List.map_cons, if_neg hk]
      rw [List.find?_cons_of_neg (p := fun (g : ℕ × List ℕ) => g.1 == k) _ hk]
      apply ih
      simp only [List.any_cons, hk] at h
      simpa using h

lemma find_append_single (k : ℕ) (v : List ℕ) :
    ∀ (gs : List (ℕ × List ℕ)), gs.any (fun g => g.1 == k) = false →
      (gs ++ [(k, v)]).find? (fun g => g.1 == k) = some (k, v) := by
  intro gs
  induction gs with
  | nil => exact fun _ => List.find?_cons_of_pos (p := fun (g : ℕ × List ℕ) => g.1 == k) _ (by simp)
  | cons g gs ih =>
    intro h
    simp only [List.any_cons, Bool.or_eq_false_iff] at h
    rw [List.cons_append,
      List.find?_cons_of_neg (p := fun (g : ℕ × List ℕ) => g.1 == k) _ (by simp [h.1])]
    exact ih h.2

lemma dictGet_dictSet_self (groups : List (ℕ × List ℕ)) (k : ℕ) (v : List ℕ) :
    dictGet (dictSet groups k v) k = v := by
  unfold dictGet dictSet
  split_ifs with h
  · rw [find_key_map_set k v groups h]; rfl
  · rw [find_append_single k v groups (Bool.eq_false_iff.mpr h)]; rfl

lemma mem_dictSet_self (groups : List (ℕ × List ℕ)) (k : ℕ) (v ms : List ℕ)
    (h : (k, ms) ∈ groups) : (k, v) ∈ dictSet groups k v := by
  unfold dictSet
  rw [if_pos (List.any_eq_true.mpr ⟨(k, ms), h, by simp⟩)]
  exact List.mem_map.mpr ⟨(k, ms), h, by simp⟩

lemma mem_dictSet_elim (groups : List (ℕ × List ℕ)) (k : ℕ) (v : List ℕ)
    (g : ℕ × List ℕ) (h : g ∈ dictSet groups k v) :
    g = (k, v) ∨ g ∈ groups := by
  unfold dictSet at h
  split_ifs at h with hk
  · rcases List.mem_map.mp h with ⟨g0, hg0, heq⟩
    by_cases hg : (g0.1 == k) = true
    · rw [if_pos hg] at heq; exact Or.inl heq.symm
    · rw [if_neg hg] at heq; right; rwa [← heq]
  · rcases List.mem_append.mp h with h1 | h1
    · exact Or.inr h1
    · exact Or.inl (by simpa using h1)

lemma dictGet_members (groups : List (ℕ × List ℕ)) (k : ℕ)
    (hwf : ∀ g ∈ groups, g.2 ≠ [] ∧ ∀ m ∈ g.2, Nat.dist g.1 m ≤ 3) :
    ∀ m ∈ dictGet groups k, Nat.dist k m ≤ 3 := by
  intro m hm
  unfold dictGet at hm
  cases hf : groups.find? (fun g => g.1 == k) with
  | none => rw [hf] at hm; simp at hm
  | some g =>
    rw [hf] at hm
    simp only [Option.map_some', Option.getD_some] at hm
    have hmem := List.mem_of_find?_eq_some hf
    have hk : g.1 = k := by simpa using List.find?_some hf
    rw [← hk]
    exact (hwf g hmem).2 m hm

lemma update_average_possible_self_false (groups : List (ℕ × List ℕ))
    (k p : ℕ)
    (hwf : ∀ g ∈ groups, g.2 ≠ [] ∧ ∀ m ∈ g.2, Nat.dist g.1 m ≤ 3)
    (hkmem : ∃ ms, (k, ms) ∈ groups) (hkp : Nat.dist k p ≤ 3) :
    update_average_possible k (dictSet groups k (dictGet groups k ++ [p])) =
      false := by
  obtain ⟨ms, hms⟩ := hkmem
  have hget : dictGet (dictSet groups k (dictGet groups k ++ [p])) k =
      dictGet groups k ++ [p] := dictGet_dictSet_self groups k _
  have hmem : (k, dictGet groups k ++ [p]) ∈
      dictSet groups k (dictGet groups k ++ [p]) :=
    mem_dictSet_self groups k _ ms hms
  have havg : Nat.dist k
      ((dictGet groups k ++ [p]).sum / (dictGet groups k ++ [p]).length) ≤ 3 := by
    apply avg_dist_le
    · simp
    · intro m hm
      rcases List.mem_append.mp hm with h1 | h1
      · exact dictGet_members groups k hwf m h1
      · rw [List.mem_singleton.mp h1]; exact hkp
  cases hall : update_average_possible k
      (dictSet groups k (dictGet groups k ++ [p])) with
  | false => rfl
  | true =>
    exfalso
    unfold update_average_possible at hall
    have h2 := List.all_eq_true.mp hall _ hmem
    rw [hget] at h2
    simp only [Bool.not_eq_true', decide_eq_false_iff_not] at h2
    exact h2 havg

lemma clusterStep_eq_noRekey (groups : List (ℕ × List ℕ)) (p : ℕ)
    (hwf : ∀ g ∈ groups, g.2 ≠ [] ∧ ∀ m ∈ g.2, Nat.dist g.1 m ≤ 3) :
    clusterStep groups p = clusterNoRekeyStep groups p := by
  unfold clusterStep clusterNoRekeyStep
  cases hc : closest_group p groups with
  | none => rfl
  | some k =>
    have hmem := closest_group_mem p k groups hc
    have hfalse := update_average_possible_self_false groups k p hwf hmem.1 hmem.2
    simp [hfalse]

lemma wf_clusterNoRekeyStep (groups : List (ℕ × List ℕ)) (p : ℕ)
    (hwf : ∀ g ∈ groups, g.2 ≠ [] ∧ ∀ m ∈ g.2, Nat.dist g.1 m ≤ 3) :
    ∀ g ∈ clusterNoRekeyStep groups p,
      g.2 ≠ [] ∧ ∀ m ∈ g.2, Nat.dist g.1 m ≤ 3 := by
  unfold clusterNoRekeyStep
  cases hc : closest_group p groups with
  | none =>
    intro g hg
    rcases mem_dictSet_elim groups p [p] g hg with h1 | h1
    · rw [h1]
      refine ⟨by simp, ?_⟩
      intro m hm
      simp only [List.mem_singleton] at hm
      simp [hm, Nat.dist_self]
    · exact hwf g h1
  | some k =>
    intro g hg
    rcases mem_dictSet_elim groups k (dictGet groups k ++ [p]) g hg with h1 | h1
    · rw [h1]
      refine ⟨by simp, ?_⟩
      intro m hm
      rcases List.mem_append.mp hm with h2 | h2
      · exact dictGet_members groups k hwf m h2
      · rw [List.mem_singleton.mp h2]
        exact (closest_group_mem p k groups hc).2
    · exact hwf g h1

lemma cluster_fold_eq :
    ∀ (payloads : List ℕ) (groups : List (ℕ × List ℕ)),
      (∀ g ∈ groups, g.2 ≠ [] ∧ ∀ m ∈ g.2, Nat.dist g.1 m ≤ 3) →
      payloads.foldl clusterStep groups =
        payloads.foldl clusterNoRekeyStep groups := by
  intro payloads
  induction payloads with
  | nil => intro groups _; rfl
  | cons p ps ih =>
    intro groups hwf
    rw [List.foldl_cons, List.foldl_cons, clusterStep_eq_noRekey groups p hwf]
    exact ih _ (wf_clusterNoRekeyStep groups p hwf)

/-- Claim C3 (amended): after a payload is appended to its closest group,
the group is never re-keyed: the collision check compares the updated
running average against every group center including the group's own old
key, and that (floor) average always lies within ±3 bytes of the old key,
so the re-keying branch never fires — the clustering is equal to the
clustering with the re-keying branch removed (and groups are never
merged). -/
theorem cluster_never_rekeys (payloads : List ℕ) :
    clusterGroups payloads = clusterGroupsNoRekey payloads :=
  cluster_fold_eq payloads [] (by simp)

/-- Counterexample for C3 as stated: appending 13 to the sole group
`10 ↦ [10]` yields the updated average 11, which collides with no OTHER
group center (there is none), yet the group stays under its old key 10 —
the collision check also tested the group's own center. -/
theorem cluster_rekey_counterexample :
    clusterStep [(10, [10])] 13 = [(10, [10, 13])] ∧
    (([10, 13] : List ℕ).sum / ([10, 13] : List ℕ).length) = 11 ∧
    ([(10, [10, 13])] : List (ℕ × List ℕ)).all
      (fun g => g.1 == 10 || !decide (Nat.dist g.1 11 ≤ 3)) = true :=
  ⟨by decide, by decide, by decide⟩



lemma ackGet_ackSet_self (st : AckState) (w : Bool) (v : Option Datagram) :
    ackGet (ackSet st w v) w = v := by
  cases w <;> simp [ackGet, ackSet]

lemma ackGet_ackSet_not (st : AckState) (w : Bool) (v : Option Datagram) :
    ackGet (ackSet st w v) (!w) = ackGet st (!w) := by
  cases w <;> simp [ackGet, ackSet]

lemma ackGet_ackSet_not2 (st : AckState) (w : Bool) (v : Option Datagram) :
    ackGet (ackSet st (!w) v) w = ackGet st w := by
  cases w <;> simp [ackGet, ackSet]

/-- Claim C4: in the exact-matching pass (run over the reversed sequence),
a datagram `d` with an unset RTT slot is assigned RTT = pending acker's
time − `d`'s time exactly when the opposite direction holds a pending
acker whose sequence number is strictly greater than `d`'s, after which
that pending acker is cleared; if the opposite direction has no pending
acker, or its sequence number is not greater, the RTT stays unset and the
pending acker stays in place; independently, `d` becomes the new pending
acker for its own direction exactly when it carries an acknowledgment
reference (`ack ≠ -1`). -/
theorem rtt_exact_matching_step (st : AckState) (d : Datagram)
    (hR : d.RTT = none) (hack : -1 ≤ d.ack) :
    (∀ a, ackGet st (!d.sentByClient) = some a → d.seqNb < a.seqNb →
      (step1Datagram st d).2.RTT = some (a.time - d.time) ∧
      ackGet (step1Datagram st d).1 (!d.sentByClient) = none) ∧
    (ackGet st (!d.sentByClient) = none →
      (step1Datagram st d).2.RTT = none ∧
      ackGet (step1Datagram st d).1 (!d.sentByClient) = none) ∧
    (∀ a, ackGet st (!d.sentByClient) = some a → ¬ d.seqNb < a.seqNb →
      (step1Datagram st d).2.RTT = none ∧
      ackGet (step1Datagram st d).1 (!d.sentByClient) = some a) ∧
    (d.ack ≠ -1 →
      ackGet (step1Datagram st d).1 d.sentByClient =
        some (step1Datagram st d).2) ∧
    (d.ack = -1 →
      ackGet (step1Datagram st d).1 d.sentByClient =
        ackGet st d.sentByClient) := by
  refine ⟨?_, ?_, ?_, ?_, ?_⟩
  · intro a ha hlt
    simp only [step1Datagram, ha, if_pos hlt]
    split_ifs with hA
    · exact ⟨rfl, by rw [ackGet_ackSet_not, ackGet_ackSet_self]⟩
    · exact ⟨rfl, ackGet_ackSet_self _ _ _⟩
  · intro ha
    simp only [step1Datagram, ha]
    split_ifs with hA
    · exact ⟨hR, by rw [ackGet_ackSet_not]; exact ha⟩
    · exact ⟨hR, ha⟩
  · intro a ha hlt
    simp only [step1Datagram, ha, if_neg hlt]
    split_ifs with hA
    · exact ⟨hR, by rw [ackGet_ackSet_not]; exact ha⟩
    · exact ⟨hR, ha⟩
  · intro hA
    have hA2 : d.ack > -1 := by omega
    cases hopp : ackGet st (!d.sentByClient) with
    | none =>
      simp only [step1Datagram, hopp]
      rw [if_pos hA2, ackGet_ackSet_self]
    | some a0 =>
      by_cases hseq : d.seqNb < a0.seqNb
      · simp only [step1Datagram, hopp, if_pos hseq]
        rw [if_pos hA2, ackGet_ackSet_self]
      · simp only [step1Datagram, hopp, if_neg hseq]
        rw [if_pos hA2, ackGet_ackSet_self]
  · intro hA
    have hA2 : ¬ d.ack > -1 := by omega
    cases hopp : ackGet st (!d.sentByClient) with
    | none =>
      simp only [step1Datagram, hopp]
      rw [if_neg hA2]
    | some a0 =>
      by_cases hseq : d.seqNb < a0.seqNb
      · simp only [step1Datagram, hopp, if_pos hseq]
        rw [if_neg hA2]
        exact ackGet_ackSet_not2 st d.sentByClient none
      · simp only [step1Datagram, hopp, if_neg hseq]
        rw [if_neg hA2]

/-- Witness for C4: a server datagram matched against the client's pending
acker gets its RTT, the acker is consumed, and the datagram itself becomes
the server-side pending acker. -/
theorem rtt_exact_matching_step_witness :
    ((step1Datagram stC4 dgC4).2.RTT = some (ackerC4.time - dgC4.time) ∧
      ackGet (step1Datagram stC4 dgC4).1 (!dgC4.sentByClient) = none) ∧
    ackGet (step1Datagram stC4 dgC4).1 dgC4.sentByClient =
      some (step1Datagram stC4 dgC4).2 :=
  ⟨(rtt_exact_matching_step stC4 dgC4 rfl (by decide)).1 ackerC4 rfl (by decide),
   (rtt_exact_matching_step stC4 dgC4 rfl (by decide)).2.2.2.1 (by decide)⟩

lemma ttrAdvance_inv (st : TTRState) (way : Bool) (d : Datagram)
    (hd : d.RTT ≠ none)
    (hT : ∀ e, st.lastT = some e → e.RTT ≠ none)
    (hF : ∀ e, st.lastF = some e → e.RTT ≠ none) :
    (∀ e, (ttrAdvance st way d).lastT = some e → e.RTT ≠ none) ∧
    (∀ e, (ttrAdvance st way d).lastF = some e → e.RTT ≠ none) := by
  cases way
  · refine ⟨fun e he => ?_, fun e he => ?_⟩
    · simp [ttrAdvance] at he
      subst he; exact hd
    · simp [ttrAdvance] at he
  · refine ⟨fun e he => ?_, fun e he => ?_⟩
    · simp [ttrAdvance] at he
    · simp [ttrAdvance] at he
      subst he; exact hd

lemma ttrAppend_lastT (st : TTRState) (way : Bool) (v : ℚ) :
    (ttrAppend st way v).lastT = st.lastT := by
  cases way <;> simp [ttrAppend]

lemma ttrAppend_lastF (st : TTRState) (way : Bool) (v : ℚ) :
    (ttrAppend st way v).lastF = st.lastF := by
  cases way <;> simp [ttrAppend]

lemma ttrStep_ok (st : TTRState) (d : Datagram)
    (hd : d.payloadLen ≠ 0 → d.RTT ≠ none)
    (hT : ∀ e, st.lastT = some e → e.RTT ≠ none)
    (hF : ∀ e, st.lastF = some e → e.RTT ≠ none) :
    ∃ s2, ttrStep st d = Except.ok s2 ∧
      (∀ e, s2.lastT = some e → e.RTT ≠ none) ∧
      (∀ e, s2.lastF = some e → e.RTT ≠ none) := by
  unfold ttrStep
  by_cases hp : d.payloadLen = 0
  · rw [if_pos hp]; exact ⟨st, rfl, hT, hF⟩
  · rw [if_neg hp]
    have hdR : d.RTT ≠ none := hd hp
    cases hlast : ttrLast st (!d.sentByClient) with
    | none =>
      exact ⟨_, rfl, (ttrAdvance_inv st _ d hdR hT hF).1,
        (ttrAdvance_inv st _ d hdR hT hF).2⟩
    | some ld =>
      have hld : ld.RTT ≠ none := by
        cases hw : d.sentByClient
        · unfold ttrLast at hlast
          rw [hw] at hlast
          simp only [Bool.not_false, if_pos] at hlast
          exact hT ld hlast
        · unfold ttrLast at hlast
          rw [hw] at hlast
          simp only [Bool.not_true, Bool.false_eq_true, if_neg] at hlast
          exact hF ld hlast
      obtain ⟨r, hr⟩ := Option.ne_none_iff_exists'.mp hld
      simp only [hr]
      by_cases hz : r ≠ 0
      · rw [if_pos hz]
        refine ⟨_, rfl, ?_, ?_⟩
        · refine (ttrAdvance_inv _ _ d hdR ?_ ?_).1 <;> intro e he
          · rw [ttrAppend_lastT] at he; exact hT e he
          · rw [ttrAppend_lastF] at he; exact hF e he
        · refine (ttrAdvance_inv _ _ d hdR ?_ ?_).2 <;> intro e he
          · rw [ttrAppend_lastT] at he; exact hT e he
          · rw [ttrAppend_lastF] at he; exact hF e he
      · rw [if_neg hz]
        exact ⟨_, rfl, (ttrAdvance_inv st _ d hdR hT hF).1,
          (ttrAdvance_inv st _ d hdR hT hF).2⟩

lemma ttr_fold_ok :
    ∀ (l : List Datagram) (st : TTRState),
      (∀ d ∈ l, d.payloadLen ≠ 0 → d.RTT ≠ none) →
      (∀ e, st.lastT = some e → e.RTT ≠ none) →
      (∀ e, st.lastF = some e → e.RTT ≠ none) →
      ∃ s, List.foldlM ttrStep st l = Except.ok s := by
  intro l
  induction l with
  | nil => intro st _ _ _; exact ⟨st, rfl⟩
  | cons d l ih =>
    intro st hl hT hF
    obtain ⟨s2, hs2, hT2, hF2⟩ :=
      ttrStep_ok st d (hl d (List.mem_cons_self _ _)) hT hF
    obtain ⟨sf, hsf⟩ := ih s2 (fun e he => hl e (List.mem_cons_of_mem _ he)) hT2 hF2
    refine ⟨sf, ?_⟩
    rw [List.foldlM_cons, hs2]
    exact hsf

lemma compute_time_to_reply_ok (l : List Datagram)
    (hrtt : ∀ d ∈ l, d.payloadLen ≠ 0 → d.RTT ≠ none) :
    ∃ p, compute_time_to_reply l = Except.ok p := by
  obtain ⟨s, hs⟩ := ttr_fold_ok l ⟨none, none, [], []⟩ hrtt
    (by intro e he; cases he) (by intro e he; cases he)
  exact ⟨(s.ttrT, s.ttrF), by unfold compute_time_to_reply; rw [hs]; rfl⟩

/-- Claim C9 (amended): when the SCP step does not decide, the reply
analysis labels the connection shell when the server-reply sample list is
nonempty with at least 0.6 of its samples at most 0.7 RTTs, else reverse
shell by the same test on the client-reply list (server direction checked
first), else tunnel; provided every payload-bearing datagram carries a set
RTT, the classifier terminates with exactly one of the five labels.
Without that proviso it can raise instead (see the counterexample). -/
theorem classifier_labels (l : List Datagram)
    (hrtt : ∀ d ∈ l, d.payloadLen ≠ 0 → d.RTT ≠ none) :
    (∀ p, compute_time_to_reply l = Except.ok p →
      replyAnalysis l = Except.ok
        (if wayQualifies p.1 then "shell"
         else if wayQualifies p.2 then "reverse shell" else "tunnel")) ∧
    (∃ s, connection_type_analyse l = Except.ok s ∧
      s ∈ (["scp (up)", "scp (down)", "shell", "reverse shell",
            "tunnel"] : List String)) := by
  constructor
  · intro p hp
    unfold replyAnalysis
    rw [hp]
    rfl
  · obtain ⟨p, hp⟩ := compute_time_to_reply_ok l hrtt
    have hra : replyAnalysis l = Except.ok
        (if wayQualifies p.1 then "shell"
         else if wayQualifies p.2 then "reverse shell" else "tunnel") := by
      unfold replyAnalysis
      rw [hp]
      rfl
    unfold connection_type_analyse
    split_ifs with h1 h2 h3
    · exact ⟨"scp (down)", rfl, by decide⟩
    · refine ⟨_, hra, ?_⟩
      split_ifs <;> decide
    · exact ⟨"scp (up)", rfl, by decide⟩
    · refine ⟨_, hra, ?_⟩
      split_ifs <;> decide

/-- Witness for C9: a balanced connection with RTTs set where the server
replies within 0.7 RTT — the classifier labels it (with the label shell). -/
theorem classifier_labels_witness :
    ∃ s, connection_type_analyse ctInShell = Except.ok s ∧
      s ∈ (["scp (up)", "scp (down)", "shell", "reverse shell",
            "tunnel"] : List String) :=
  (classifier_labels ctInShell (by decide)).2

/-- Counterexample for C9 as stated: a payload-bearing client datagram with
an unset RTT followed by a server payload datagram makes the classifier
dereference the unset RTT — it raises instead of producing a label. -/
theorem classifier_raises_counterexample :
    connection_type_analyse ctInRaise = Except.error () := by
  with_unfolding_all rfl

lemma sameExceptRTT_refl (d : Datagram) : sameExceptRTT d d :=
  ⟨rfl, rfl, rfl, rfl, rfl, rfl⟩

lemma sameExceptRTT_trans {a b c : Datagram}
    (h1 : sameExceptRTT a b) (h2 : sameExceptRTT b c) : sameExceptRTT a c := by
  obtain ⟨x1, x2, x3, x4, x5, x6⟩ := h1
  obtain ⟨y1, y2, y3, y4, y5, y6⟩ := h2
  exact ⟨y1.trans x1, y2.trans x2, y3.trans x3, y4.trans x4,
    y5.trans x5, y6.trans x6⟩

lemma forall2_comp {α β γ : Type} {R : α → β → Prop} {S : β → γ → Prop}
    {T : α → γ → Prop} (h : ∀ a b c, R a b → S b c → T a c) :
    ∀ {l : List α} {m : List β} {n : List γ},
      List.Forall₂ R l m → List.Forall₂ S m n → List.Forall₂ T l n := by
  intro l m n h1 h2
  induction h1 generalizing n with
  | nil => cases h2; exact List.Forall₂.nil
  | @cons a b l2 m2 hab _ ih =>
    cases h2 with
    | cons hbc h3 => exact List.Forall₂.cons (h _ _ _ hab hbc) (ih h3)

lemma step1Datagram_frame (st : AckState) (d : Datagram) :
    sameExceptRTT d (step1Datagram st d).2 := by
  cases hopp : ackGet st (!d.sentByClient) with
  | none =>
    simp only [step1Datagram, hopp]
    split_ifs <;> exact ⟨rfl, rfl, rfl, rfl, rfl, rfl⟩
  | some a =>
    by_cases hseq : d.seqNb < a.seqNb
    · simp only [step1Datagram, hopp, if_pos hseq]
      split_ifs <;> exact ⟨rfl, rfl, rfl, rfl, rfl, rfl⟩
    · simp only [step1Datagram, hopp, if_neg hseq]
      split_ifs <;> exact ⟨rfl, rfl, rfl, rfl, rfl, rfl⟩

lemma step1Go_frame :
    ∀ (l : List Datagram) (st : AckState),
      List.Forall₂ sameExceptRTT l (step1Go st l) := by
  intro l
  induction l with
  | nil => intro st; exact List.Forall₂.nil
  | cons d l ih =>
    intro st
    exact List.Forall₂.cons (step1Datagram_frame st d) (ih _)

lemma computeRTTStep1_frame (l : List Datagram) :
    List.Forall₂ sameExceptRTT l (computeRTTStep1 l) := by
  unfold computeRTTStep1
  have h := List.rel_reverse (step1Go_frame l.reverse ⟨none, none⟩)
  rwa [List.reverse_reverse] at h

lemma step2Go_slots_frame :
    ∀ (l : List Datagram) (st : InterpState),
      List.Forall₂ (fun d s => slotD s = d) l (step2Go st l).1 := by
  intro l
  induction l with
  | nil => intro st; exact List.Forall₂.nil
  | cons d l ih =>
    intro st
    cases hR : d.RTT with
    | none =>
      simp only [step2Go, hR]
      exact List.Forall₂.cons rfl (ih _)
    | some v =>
      simp only [step2Go, hR]
      exact List.Forall₂.cons rfl (ih _)

lemma resolve_frame :
    ∀ (slots : List Slot) (fT fF : List ℚ),
      List.Forall₂ (fun s e => sameExceptRTT (slotD s) e) slots
        (resolve slots fT fF) := by
  intro slots
  induction slots with
  | nil => intro fT fF; exact List.Forall₂.nil
  | cons s slots ih =>
    intro fT fF
    cases s with
    | done d => exact List.Forall₂.cons (sameExceptRTT_refl d) (ih _ _)
    | pend d =>
      simp only [resolve]
      split_ifs with hw
      · cases fT with
        | nil => exact List.Forall₂.cons (sameExceptRTT_refl d) (ih _ _)
        | cons v fT2 =>
          exact List.Forall₂.cons ⟨rfl, rfl, rfl, rfl, rfl, rfl⟩ (ih _ _)
      · cases fF with
        | nil => exact List.Forall₂.cons (sameExceptRTT_refl d) (ih _ _)
        | cons v fF2 =>
          exact List.Forall₂.cons ⟨rfl, rfl, rfl, rfl, rfl, rfl⟩ (ih _ _)

lemma computeRTTStep2_frame (l : List Datagram) :
    List.Forall₂ sameExceptRTT l (computeRTTStep2 l) := by
  unfold computeRTTStep2
  exact forall2_comp
    (fun d s e hds hse => by rw [hds] at hse; exact hse)
    (step2Go_slots_frame l _) (resolve_frame _ _ _)

/-- Claim C6: after `compute_RTT` the datagram sequence has the same length
and, at every original index, a datagram agreeing with the original one on
every field except possibly the estimated RTT — the order is restored and
nothing but the RTT slot is mutated. -/
theorem compute_RTT_frame (l : List Datagram) :
    (compute_RTT l).length = l.length ∧
    List.Forall₂ sameExceptRTT l (compute_RTT l) := by
  have h := forall2_comp (R := sameExceptRTT) (S := sameExceptRTT)
    (T := sameExceptRTT) (fun a b c h1 h2 => sameExceptRTT_trans h1 h2)
    (computeRTTStep1_frame l) (computeRTTStep2_frame (computeRTTStep1 l))
  exact ⟨(List.Forall₂.length_eq h).symm, h⟩

lemma resolveOne_no_fills : ∀ (ss : List Slot), resolveOne ss [] = ss.map slotD := by
  intro ss
  induction ss with
  | nil => rfl
  | cons s ss ih =>
    cases s with
    | done d => simp only [resolveOne, List.map_cons, slotD, ih]
    | pend d => simp only [resolveOne, List.map_cons, slotD, ih]

lemma resolveOne_pends_append :
    ∀ (pre : List Datagram) (f1 : List ℚ) (ss : List Slot) (f2 : List ℚ),
      f1.length = pre.length →
      resolveOne (pre.map Slot.pend ++ ss) (f1 ++ f2) =
        List.zipWith (fun d v => { d with RTT := some v }) pre f1 ++
          resolveOne ss f2 := by
  intro pre
  induction pre with
  | nil =>
    intro f1 ss f2 hlen
    rw [List.length_eq_zero.mp hlen]
    rfl
  | cons d pre ih =>
    intro f1 ss f2 hlen
    cases f1 with
    | nil => simp at hlen
    | cons v f1 =>
      rw [List.map_cons, List.cons_append, List.cons_append,
        show resolveOne (Slot.pend d :: (pre.map Slot.pend ++ ss))
            (v :: (f1 ++ f2)) =
          { d with RTT := some v } ::
            resolveOne (pre.map Slot.pend ++ ss) (f1 ++ f2) from rfl,
        List.zipWith_cons_cons, List.cons_append,
        ih f1 ss f2 (by simpa using hlen)]

lemma zipWith_fill_map_RTT :
    ∀ (pre : List Datagram) (f1 : List ℚ), f1.length = pre.length →
      (List.zipWith (fun d v => { d with RTT := some v }) pre f1).map
        Datagram.RTT = f1.map some := by
  intro pre
  induction pre with
  | nil =>
    intro f1 hlen
    rw [List.length_eq_zero.mp hlen]
    rfl
  | cons d pre ih =>
    intro f1 hlen
    cases f1 with
    | nil => simp at hlen
    | cons v f1 =>
      simp only [List.zipWith_cons_cons, List.map_cons]
      rw [ih f1 (by simpa using hlen)]

lemma map_RTT_all_none :
    ∀ (pre : List Datagram), (∀ d ∈ pre, d.RTT = none) →
      pre.map Datagram.RTT = List.replicate pre.length none := by
  intro pre
  induction pre with
  | nil => intro _; rfl
  | cons d pre ih =>
    intro h
    simp only [List.map_cons, List.length_cons, List.replicate_succ]
    rw [h d (List.mem_cons_self _ _), ih (fun e he => h e (List.mem_cons_of_mem _ he))]

lemma fillVals_length (last : Option ℚ) (r : ℚ) (k : ℕ) :
    (fillVals last r k).length = k := by
  cases last with
  | none => simp only [fillVals, List.length_replicate]
  | some l0 => simp only [fillVals, List.length_map, List.length_range]

lemma ipLast_ipInc (st : InterpState) (u w : Bool) :
    ipLast (ipInc st u) w = ipLast st w := by
  cases u <;> cases w <;> simp [ipLast, ipInc]

lemma ipPend_ipInc_self (st : InterpState) (w : Bool) :
    ipPend (ipInc st w) w = ipPend st w + 1 := by
  cases w <;> simp [ipPend, ipInc]

lemma ipPend_ipInc_ne (st : InterpState) (u w : Bool) (h : u ≠ w) :
    ipPend (ipInc st u) w = ipPend st w := by
  cases u <;> cases w <;> simp_all [ipPend, ipInc]

lemma ipLast_ipReset_self (st : InterpState) (w : Bool) (r : ℚ) :
    ipLast (ipReset st w r) w = some r := by
  cases w <;> simp [ipLast, ipReset]

lemma ipLast_ipReset_ne (st : InterpState) (u w : Bool) (r : ℚ) (h : u ≠ w) :
    ipLast (ipReset st u r) w = ipLast st w := by
  cases u <;> cases w <;> simp_all [ipLast, ipReset]

lemma ipPend_ipReset_self (st : InterpState) (w : Bool) (r : ℚ) :
    ipPend (ipReset st w r) w = 0 := by
  cases w <;> simp [ipPend, ipReset]

lemma ipPend_ipReset_ne (st : InterpState) (u w : Bool) (r : ℚ) (h : u ≠ w) :
    ipPend (ipReset st u r) w = ipPend st w := by
  cases u <;> cases w <;> simp_all [ipPend, ipReset]

lemma resolve_filter :
    ∀ (slots : List Slot) (fT fF : List ℚ),
      ((resolve slots fT fF).filter (fun d => d.sentByClient == true) =
        resolveOne (slots.filter (isWay true)) fT) ∧
      ((resolve slots fT fF).filter (fun d => d.sentByClient == false) =
        resolveOne (slots.filter (isWay false)) fF) := by
  intro slots
  induction slots with
  | nil => intro fT fF; exact ⟨rfl, rfl⟩
  | cons s slots ih =>
    intro fT fF
    cases s with
    | done d =>
      have h1 : resolve (Slot.done d :: slots) fT fF = d :: resolve slots fT fF := rfl
      cases hd : d.sentByClient
      · constructor
        · rw [h1, List.filter_cons_of_neg (by simp [hd]),
            List.filter_cons_of_neg (by simp [isWay, slotD, hd])]
          exact (ih fT fF).1
        · rw [h1, List.filter_cons_of_pos (by simp [hd]),
            List.filter_cons_of_pos (by simp [isWay, slotD, hd])]
          rw [show resolveOne (Slot.done d :: slots.filter (isWay false)) fF =
            d :: resolveOne (slots.filter (isWay false)) fF from rfl]
          rw [(ih fT fF).2]
      · constructor
        · rw [h1, List.filter_cons_of_pos (by simp [hd]),
            List.filter_cons_of_pos (by simp [isWay, slotD, hd])]
          rw [show resolveOne (Slot.done d :: slots.filter (isWay true)) fT =
            d :: resolveOne (slots.filter (isWay true)) fT from rfl]
          rw [(ih fT fF).1]
        · rw [h1, List.filter_cons_of_neg (by simp [hd]),
            List.filter_cons_of_neg (by simp [isWay, slotD, hd])]
          exact (ih fT fF).2
    | pend d =>
      cases hd : d.sentByClient
      · cases fF with
        | nil =>
          have h1 : resolve (Slot.pend d :: slots) fT [] =
              d :: resolve slots fT [] := by
            simp [resolve, hd]
          constructor
          · rw [h1, List.filter_cons_of_neg (by simp [hd]),
              List.filter_cons_of_neg (by simp [isWay, slotD, hd])]
            exact (ih fT []).1
          · rw [h1, List.filter_cons_of_pos (by simp [hd]),
              List.filter_cons_of_pos (by simp [isWay, slotD, hd])]
            rw [show resolveOne (Slot.pend d :: slots.filter (isWay false))
                ([] : List ℚ) =
              d :: resolveOne (slots.filter (isWay false)) [] from rfl]
            rw [(ih fT []).2]
        | cons v fF2 =>
          have h1 : resolve (Slot.pend d :: slots) fT (v :: fF2) =
              { d with RTT := some v } :: resolve slots fT fF2 := by
            simp [resolve, hd]
          constructor
          · rw [h1, List.filter_cons_of_neg (by simp [hd]),
              List.filter_cons_of_neg (by simp [isWay, slotD, hd])]
            exact (ih fT fF2).1
          · rw [h1, List.filter_cons_of_pos (by simp [hd]),
              List.filter_cons_of_pos (by simp [isWay, slotD, hd])]
            rw [show resolveOne (Slot.pend d :: slots.filter (isWay false))
                (v :: fF2) =
              { d with RTT := some v } ::
                resolveOne (slots.filter (isWay false)) fF2 from rfl]
            rw [(ih fT fF2).2]
      · cases fT with
        | nil =>
          have h1 : resolve (Slot.pend d :: slots) [] fF =
              d :: resolve slots [] fF := by
            simp [resolve, hd]
          constructor
          · rw [h1, List.filter_cons_of_pos (by simp [hd]),
              List.filter_cons_of_pos (by simp [isWay, slotD, hd])]
            rw [show resolveOne (Slot.pend d :: slots.filter (isWay true))
                ([] : List ℚ) =
              d :: resolveOne (slots.filter (isWay true)) [] from rfl]
            rw [(ih [] fF).1]
          · rw [h1, List.filter_cons_of_neg (by simp [hd]),
              List.filter_cons_of_neg (by simp [isWay, slotD, hd])]
            exact (ih [] fF).2
        | cons v fT2 =>
          have h1 : resolve (Slot.pend d :: slots) (v :: fT2) fF =
              { d with RTT := some v } :: resolve slots fT2 fF := by
            simp [resolve, hd]
          constructor
          · rw [h1, List.filter_cons_of_pos (by simp [hd]),
              List.filter_cons_of_pos (by simp [isWay, slotD, hd])]
            rw [show resolveOne (Slot.pend d :: slots.filter (isWay true))
                (v :: fT2) =
              { d with RTT := some v } ::
                resolveOne (slots.filter (isWay true)) fT2 from rfl]
            rw [(ih fT2 fF).1]
          · rw [h1, List.filter_cons_of_neg (by simp [hd]),
              List.filter_cons_of_neg (by simp [isWay, slotD, hd])]
            exact (ih fT2 fF).2

lemma resolveOne_pends_replicate :
    ∀ (pre : List Datagram) (l0 : ℚ),
      (resolveOne (pre.map Slot.pend) (List.replicate pre.length l0)).map
        Datagram.RTT = List.replicate pre.length (some l0) := by
  intro pre
  induction pre with
  | nil => intro l0; rfl
  | cons d pre ih =>
    intro l0
    simp only [List.map_cons, List.length_cons, List.replicate_succ]
    rw [show resolveOne (Slot.pend d :: pre.map Slot.pend)
        (l0 :: List.replicate pre.length l0) =
      { d with RTT := some l0 } ::
        resolveOne (pre.map Slot.pend) (List.replicate pre.length l0) from rfl]
    rw [List.map_cons, ih l0]

lemma map_pend_slotD : ∀ (pre : List Datagram),
    (pre.map Slot.pend).map slotD = pre := by
  intro pre
  induction pre with
  | nil => rfl
  | cons d pre ih => simp only [List.map_cons, slotD, ih]

lemma step2Go_way :
    ∀ (l : List Datagram) (st : InterpState) (w : Bool) (pre : List Datagram),
      (∀ d ∈ pre, d.RTT = none) →
      ipPend st w = pre.length →
      (resolveOne (pre.map Slot.pend ++ (step2Go st l).1.filter (isWay w))
        (fillsOf w (step2Go st l))).map Datagram.RTT =
      interpGo (ipLast st w) pre.length (wayRTTs w l) := by
  intro l
  induction l with
  | nil =>
    intro st w pre hpre hp
    have hslots : (step2Go st []).1 = [] := rfl
    have hway : wayRTTs w ([] : List Datagram) = [] := rfl
    rw [hslots, hway]
    cases hlast : ipLast st w with
    | none =>
      have hfills : fillsOf w (step2Go st []) = [] := by
        cases w <;> simp_all [fillsOf, step2Go, ipLast]
      rw [hfills, List.filter_nil, List.append_nil, resolveOne_no_fills,
        map_pend_slotD, map_RTT_all_none pre hpre]
      rfl
    | some l0 =>
      have hfills : fillsOf w (step2Go st []) =
          List.replicate pre.length l0 := by
        cases w <;> simp_all [fillsOf, step2Go, ipLast, ipPend]
      rw [hfills, List.filter_nil, List.append_nil, resolveOne_pends_replicate]
      rfl
  | cons d l ih =>
    intro st w pre hpre hp
    cases hR : d.RTT with
    | none =>
      have e1 : (step2Go st (d :: l)).1 =
          Slot.pend d :: (step2Go (ipInc st d.sentByClient) l).1 := by
        simp [step2Go, hR]
      have e2 : fillsOf w (step2Go st (d :: l)) =
          fillsOf w (step2Go (ipInc st d.sentByClient) l) := by
        cases w <;> simp [step2Go, hR, fillsOf]
      by_cases hw : d.sentByClient = w
      · subst hw
        have hfw : isWay d.sentByClient (Slot.pend d) = true := by
          simp [isWay, slotD]
        have hwr : wayRTTs d.sentByClient (d :: l) =
            none :: wayRTTs d.sentByClient l := by
          unfold wayRTTs
          rw [List.filter_cons_of_pos (by simp), List.map_cons, hR]
        rw [e1, e2, List.filter_cons_of_pos hfw, hwr]
        rw [show pre.map Slot.pend ++ Slot.pend d ::
            ((step2Go (ipInc st d.sentByClient) l).1.filter
              (isWay d.sentByClient)) =
          (pre ++ [d]).map Slot.pend ++
            ((step2Go (ipInc st d.sentByClient) l).1.filter
              (isWay d.sentByClient)) from by simp]
        rw [show interpGo (ipLast st d.sentByClient) pre.length
            (none :: wayRTTs d.sentByClient l) =
          interpGo (ipLast st d.sentByClient) (pre.length + 1)
            (wayRTTs d.sentByClient l) from rfl]
        rw [← ipLast_ipInc st d.sentByClient d.sentByClient]
        have hp2 : ipPend (ipInc st d.sentByClient) d.sentByClient =
            (pre ++ [d]).length := by
          rw [ipPend_ipInc_self, hp]
          simp
        have hpre2 : ∀ e ∈ pre ++ [d], e.RTT = none := by
          intro e he
          rcases List.mem_append.mp he with h1 | h1
          · exact hpre e h1
          · rw [List.mem_singleton.mp h1]; exact hR
        have h3 := ih (ipInc st d.sentByClient) d.sentByClient (pre ++ [d])
          hpre2 hp2
        rw [show (pre ++ [d]).length = pre.length + 1 from by simp] at h3
        exact h3
      · have hfw : ¬ isWay w (Slot.pend d) = true := by
          simp [isWay, slotD]
          exact hw
        have hwr : wayRTTs w (d :: l) = wayRTTs w l := by
          unfold wayRTTs
          rw [List.filter_cons_of_neg (by simp [hw])]
        rw [e1, e2, List.filter_cons_of_neg hfw, hwr]
        rw [← ipLast_ipInc st d.sentByClient w]
        exact ih (ipInc st d.sentByClient) w pre hpre
          (by rw [ipPend_ipInc_ne st _ _ hw, hp])
    | some v =>
      have e1 : (step2Go st (d :: l)).1 =
          Slot.done d :: (step2Go (ipReset st d.sentByClient v) l).1 := by
        simp [step2Go, hR]
      by_cases hw : d.sentByClient = w
      · subst hw
        have e2 : fillsOf d.sentByClient (step2Go st (d :: l)) =
            fillVals (ipLast st d.sentByClient) v pre.length ++
              fillsOf d.sentByClient
                (step2Go (ipReset st d.sentByClient v) l) := by
          rw [← hp]
          cases hsb : d.sentByClient <;>
            simp [step2Go, hR, fillsOf, hsb]
        have hfw : isWay d.sentByClient (Slot.done d) = true := by
          simp [isWay, slotD]
        have hwr : wayRTTs d.sentByClient (d :: l) =
            some v :: wayRTTs d.sentByClient l := by
          unfold wayRTTs
          rw [List.filter_cons_of_pos (by simp), List.map_cons, hR]
        rw [e1, e2, List.filter_cons_of_pos hfw, hwr]
        rw [show interpGo (ipLast st d.sentByClient) pre.length
            (some v :: wayRTTs d.sentByClient l) =
          fillGap (ipLast st d.sentByClient) v pre.length ++
            some v :: interpGo (some v) 0 (wayRTTs d.sentByClient l) from rfl]
        rw [resolveOne_pends_append pre
          (fillVals (ipLast st d.sentByClient) v pre.length)
          (Slot.done d :: ((step2Go (ipReset st d.sentByClient v) l).1.filter
            (isWay d.sentByClient)))
          (fillsOf d.sentByClient (step2Go (ipReset st d.sentByClient v) l))
          (fillVals_length _ _ _)]
        rw [show resolveOne (Slot.done d ::
            ((step2Go (ipReset st d.sentByClient v) l).1.filter
              (isWay d.sentByClient)))
            (fillsOf d.sentByClient
              (step2Go (ipReset st d.sentByClient v) l)) =
          d :: resolveOne
            ((step2Go (ipReset st d.sentByClient v) l).1.filter
              (isWay d.sentByClient))
            (fillsOf d.sentByClient
              (step2Go (ipReset st d.sentByClient v) l)) from rfl]
        rw [List.map_append, List.map_cons]
        rw [zipWith_fill_map_RTT pre _ (fillVals_length _ _ _), hR]
        have h3 := ih (ipReset st d.sentByClient v) d.sentByClient []
          (by intro e he; cases he) (by rw [ipPend_ipReset_self]; rfl)
        simp only [List.map_nil, List.nil_append, List.length_nil] at h3
        rw [ipLast_ipReset_self] at h3
        rw [h3]
        rfl
      · have e2 : fillsOf w (step2Go st (d :: l)) =
            fillsOf w (step2Go (ipReset st d.sentByClient v) l) := by
          cases hsb : d.sentByClient <;> cases hww : w <;>
            simp_all [step2Go, hR, fillsOf]
        have hfw : ¬ isWay w (Slot.done d) = true := by
          simp [isWay, slotD]
          exact hw
        have hwr : wayRTTs w (d :: l) = wayRTTs w l := by
          unfold wayRTTs
          rw [List.filter_cons_of_neg (by simp [hw])]
        rw [e1, e2, List.filter_cons_of_neg hfw, hwr]
        rw [← ipLast_ipReset_ne st d.sentByClient w v hw]
        exact ih (ipReset st d.sentByClient v) w pre hpre
          (by rw [ipPend_ipReset_ne st _ _ _ hw, hp])

lemma interpGo_replicate_none :
    ∀ (n : ℕ) (last : Option ℚ) (p : ℕ) (xs : List (Option ℚ)),
      interpGo last p (List.replicate n none ++ xs) =
        interpGo last (p + n) xs := by
  intro n
  induction n with
  | zero => intro last p xs; simp
  | succ n ihn =>
    intro last p xs
    rw [List.replicate_succ, List.cons_append]
    rw [show interpGo last p (none :: (List.replicate n none ++ xs)) =
      interpGo last (p + 1) (List.replicate n none ++ xs) from rfl]
    rw [ihn last (p + 1) xs]
    congr 1
    omega

lemma wayRTTs_computeRTTStep2 (l : List Datagram) (w : Bool) :
    wayRTTs w (computeRTTStep2 l) = interpRTTs (wayRTTs w l) := by
  have hL2 := step2Go_way l ⟨none, none, 0, 0⟩ w []
    (by intro e he; cases he) (by cases w <;> rfl)
  simp only [List.map_nil, List.nil_append, List.length_nil] at hL2
  have hlast : ipLast ⟨none, none, 0, 0⟩ w = none := by cases w <;> rfl
  rw [hlast] at hL2
  cases w
  · have hsel := (resolve_filter (step2Go ⟨none, none, 0, 0⟩ l).1
      (step2Go ⟨none, none, 0, 0⟩ l).2.1 (step2Go ⟨none, none, 0, 0⟩ l).2.2).2
    unfold wayRTTs computeRTTStep2 interpRTTs
    rw [hsel]
    exact hL2
  · have hsel := (resolve_filter (step2Go ⟨none, none, 0, 0⟩ l).1
      (step2Go ⟨none, none, 0, 0⟩ l).2.1 (step2Go ⟨none, none, 0, 0⟩ l).2.2).1
    unfold wayRTTs computeRTTStep2 interpRTTs
    rw [hsel]
    exact hL2

/-- Claim C5: the interpolation pass acts on each direction independently,
as the single-direction interpolation `interpRTTs` of that direction's RTT
slots; on a direction whose slots form a leading run of `a` unset slots, a
matched RTT `r0`, a run of `k` unset slots, a matched RTT `r1` and a
trailing run of `b` unset slots, the leading run receives exactly `r0`,
the middle run receives `r0 + i·(r1−r0)/(k+1)` at 1-indexed position `i`,
and the trailing run receives exactly `r1`; a direction with no matched
RTT at all stays entirely unset. -/
theorem rtt_interpolation (l : List Datagram) (w : Bool) (a k b : ℕ)
    (r0 r1 : ℚ) :
    wayRTTs w (computeRTTStep2 l) = interpRTTs (wayRTTs w l) ∧
    interpRTTs (List.replicate a none ++ (some r0 ::
        (List.replicate k none ++ (some r1 :: List.replicate b none)))) =
      List.replicate a (some r0) ++ (some r0 ::
        ((List.range k).map (fun (i : ℕ) =>
          some (r0 + ((i : ℚ) + 1) * ((r1 - r0) / ((k : ℚ) + 1)))) ++
        (some r1 :: List.replicate b (some r1)))) ∧
    interpRTTs (List.replicate a (none : Option ℚ)) =
      List.replicate a none := by
  refine ⟨wayRTTs_computeRTTStep2 l w, ?_, ?_⟩
  · unfold interpRTTs
    rw [interpGo_replicate_none a none 0 _, Nat.zero_add]
    rw [show interpGo none a (some r0 ::
        (List.replicate k none ++ (some r1 :: List.replicate b none))) =
      fillGap none r0 a ++ (some r0 :: interpGo (some r0) 0
        (List.replicate k none ++ (some r1 :: List.replicate b none)))
        from rfl]
    rw [interpGo_replicate_none k (some r0) 0 _, Nat.zero_add]
    rw [show interpGo (some r0) k (some r1 :: List.replicate b none) =
      fillGap (some r0) r1 k ++ (some r1 ::
        interpGo (some r1) 0 (List.replicate b none)) from rfl]
    have htr := interpGo_replicate_none b (some r1) 0 []
    rw [List.append_nil] at htr
    rw [htr, Nat.zero_add]
    rw [show interpGo (some r1) b ([] : List (Option ℚ)) =
      List.replicate b (some r1) from rfl]
    rw [show fillGap none r0 a = List.replicate a (some r0) from by
      simp [fillGap, fillVals]]
    rw [show fillGap (some r0) r1 k = (List.range k).map (fun (i : ℕ) =>
        some (r0 + ((i : ℚ) + 1) * ((r1 - r0) / ((k : ℚ) + 1)))) from by
      simp [fillGap, fillVals, List.map_map]]
  · unfold interpRTTs
    have h := interpGo_replicate_none a none 0 []
    rw [List.append_nil] at h
    rw [h, Nat.zero_add]
    rfl
